import Mathlib

/-!
Verification of the SmartRecruitAI extraction-and-recommendation pipeline.

This file shallowly embeds the core of `ai_client.py` and `resume_parser.py`:
the keyword heuristic `heuristic_recommend`, the JSON-recovery helper
`_try_parse_json`, the orchestrator `recommend_jobs_from_text`, and the text
extractor `extract_text` with its PDF/DOCX/plain-text dispatch.

Modelling conventions:
* Python strings are Lean `String`s; `str.lower` is modelled by `pyLower`
  (ASCII case folding, which agrees with Python on ASCII input).
* Python floats are modelled by exact rationals; `round(x, 2)` is modelled by
  `round2`, rounding half to even as Python does.  Every numeric value reached
  by a theorem below is an exact decimal, where the two agree.
* Exceptions are modelled by `Except Unit` or `Option`: a `.error`/`none`
  result stands for a raised exception at that call site.
* The external PDF/DOCX libraries are modelled by a `DocLib` record giving,
  for each input, either a construction failure or the list of per-page
  (resp. per-paragraph) extraction outcomes, mirroring how the Python code
  consumes `PdfReader` and `Document`.
* `json.loads` is modelled by an arbitrary function `String → Option Json`
  (`none` = the call raised); the theorems about `_try_parse_json` and the
  orchestrator are proved for every such function.
-/

/-- ASCII lower-casing of one character, modelling Python `str.lower` on
ASCII text (the only case the repository exercises). -/
def pyLowerChar (c : Char) : Char :=
  if 65 ≤ c.toNat ∧ c.toNat ≤ 90 then Char.ofNat (c.toNat + 32) else c

/-- Model of Python `str.lower`. -/
def pyLower (s : String) : String :=
  String.mk (s.data.map pyLowerChar)

/-- One token of the pattern actually used by the code, `re.findall(r"\\w+", ...)`:
in a raw Python string `r"\\w+"` is the regex `\\w+`, i.e. a literal
backslash followed by one or more letters `w` (NOT the word pattern `\w+`). -/
def mkTok (ws : List Char) : String :=
  String.mk ('\\' :: ws.reverse)

/-- State machine computing `re.findall(r"\\w+", text)` over the character
list.  The state is `none` when no match is in progress, and `some ws` when a
backslash has been seen followed by the (reversed) letters `w` in `ws`. -/
def goBW : List Char → Option (List Char) → List String
  | [], st =>
    match st with
    | some (w :: ws) => [mkTok (w :: ws)]
    | _ => []
  | c :: t, st =>
    if c = '\\' then
      match st with
      | some (w :: ws) => mkTok (w :: ws) :: goBW t (some [])
      | _ => goBW t (some [])
    else if c = 'w' then
      match st with
      | some ws => goBW t (some ('w' :: ws))
      | none => goBW t none
    else
      match st with
      | some (w :: ws) => mkTok (w :: ws) :: goBW t none
      | _ => goBW t none

/-- `re.findall(r"\\w+", s)` on a character list. -/
def findallBW (l : List Char) : List String :=
  goBW l none

/-- The token list built by `heuristic_recommend`:
`re.findall(r"\\w+", text.lower())`. -/
def pyTokens (text : String) : List String :=
  findallBW (pyLower text).data

/-- `any(k in keywords for k in ks)` where `keywords` is the token set. -/
def bucketHit (keywords : List String) (ks : List String) : Bool :=
  ks.any (fun k => decide (k ∈ keywords))

def backendKeys : List String := ["python", "django", "flask"]

def frontendKeys : List String := ["react", "javascript", "vue", "frontend"]

def cloudKeys : List String := ["aws", "azure", "gcp", "cloud", "devops"]

def mlKeys : List String := ["machine", "learning", "nlp", "data", "tensorflow", "pytorch"]

/-- Python `round` to the nearest integer, rounding halves to even. -/
def roundHalfEven (q : ℚ) : ℤ :=
  let f := ⌊q⌋
  let r := q - (f : ℚ)
  if r < 1/2 then f
  else if 1/2 < r then f + 1
  else if 2 ∣ f then f else f + 1

/-- Python `round(x, 2)`. -/
def round2 (q : ℚ) : ℚ :=
  (roundHalfEven (q * 100) : ℚ) / 100

/-- Insertion of a string into a sorted list, by the lexicographic order
Python uses to sort strings. -/
def insertSorted (s : String) : List String → List String
  | [] => [s]
  | t :: ts => if s < t then s :: t :: ts else t :: insertSorted s ts

/-- Model of Python `sorted` on a list of strings. -/
def pySorted (l : List String) : List String :=
  l.foldr insertSorted []

/-- The result dictionary produced by the recommendation pipeline.
`confidence_scores` is an insertion-ordered dictionary, as in Python. -/
structure RecResult where
  recommended_titles : List String
  confidence_scores : List (String × ℚ)
  highlights : List String
  explanation : String
deriving DecidableEq

/-- Shallow embedding of `heuristic_recommend` from `ai_client.py`. -/
def heuristic_recommend (text : String) : RecResult :=
  let tokens := pyTokens text
  let titles0 : List String :=
    (if bucketHit tokens backendKeys then ["Backend Engineer / Python Developer"] else []) ++
    (if bucketHit tokens frontendKeys then ["Frontend Engineer / React Developer"] else []) ++
    (if bucketHit tokens cloudKeys then ["Cloud Engineer / DevOps Engineer"] else []) ++
    (if bucketHit tokens mlKeys then ["Machine Learning Engineer / Data Scientist"] else [])
  let titles := if titles0.isEmpty then ["Software Engineer (General)"] else titles0
  let scores := titles.enum.map
    (fun it => (it.2, round2 (7/10 + (2/10) * ((it.1 : ℚ) / ((max 1 (titles.length - 1) : ℕ) : ℚ)))))
  let highlights :=
    ["Detected skills sample: " ++
      String.intercalate ", " ((pySorted (tokens.dedup.filter (fun w => w.length > 3))).take 20)]
  { recommended_titles := titles
    confidence_scores := scores
    highlights := highlights
    explanation := "Heuristic fallback used. Set OPENAI_API_KEY to enable richer LLM output." }

/-- JSON values, as produced by `json.loads`.  Objects are insertion-ordered
key/value lists (objects coming from `json.loads` have distinct keys). -/
inductive Json where
  | null : Json
  | bool (b : Bool) : Json
  | num (q : ℚ) : Json
  | str (s : String) : Json
  | arr (xs : List Json) : Json
  | obj (kvs : List (String × Json)) : Json

/-- Python truthiness of a JSON value (`if parsed ...`). -/
def Json.truthy : Json → Bool
  | .null => false
  | .bool b => b
  | .num q => decide (q ≠ 0)
  | .str s => s != ""
  | .arr xs => !xs.isEmpty
  | .obj kvs => !kvs.isEmpty

/-- Dictionary lookup `j[k]`, `none` when `j` is not a dict or lacks the key
(in Python those raise, which the caller catches). -/
def getKey (j : Json) (k : String) : Option Json :=
  match j with
  | .obj kvs => (kvs.find? (fun p => p.1 == k)).map (fun p => p.2)
  | _ => none

/-- List indexing `j[i]`, `none` when `j` is not a list or `i` is out of
range. -/
def getIdx (j : Json) (i : Nat) : Option Json :=
  match j with
  | .arr xs => xs.get? i
  | _ => none

/-- `resp['choices'][0]['message']['content']`, as a string; `none` models
any exception on the way (missing key, wrong shape, non-string content),
which `recommend_jobs_from_text` catches and converts to the heuristic. -/
def extractMsg (resp : Json) : Option String :=
  match ((getKey resp "choices").bind (fun c => getIdx c 0)).bind
      (fun c0 => (getKey c0 "message").bind (fun m => getKey m "content")) with
  | some (.str s) => some s
  | _ => none

/-- Index of the last occurrence of `ch` in a character list. -/
def lastIdxOfCh (ch : Char) : List Char → Option Nat
  | [] => none
  | c :: t =>
    match lastIdxOfCh ch t with
    | some j => some (j + 1)
    | none => if c = ch then some 0 else none

/-- Index of the first occurrence of `ch` in a character list. -/
def firstIdxOf (ch : Char) : List Char → Option Nat
  | [] => none
  | c :: t => if c = ch then some 0 else (firstIdxOf ch t).map (fun i => i + 1)

/-- One anchored attempt of the regex `\{.*\}` with `re.S`: the text must
start with a brace `\x7b`, and the greedy `.*` extends to the last closing
brace of the remainder. -/
def matchAt (l : List Char) : Option (List Char) :=
  match l with
  | [] => none
  | c :: rest =>
    if c = '{' then (lastIdxOfCh '}' rest).map (fun j => '{' :: rest.take (j + 1)) else none

/-- `re.search` of the pattern `\{.*\}` with `flags=re.S`: try an anchored
match at each position from the left, returning the first success. -/
def reSearch : List Char → Option (List Char)
  | [] => none
  | c :: rest =>
    match matchAt (c :: rest) with
    | some m => some m
    | none => reSearch rest

/-- The span the specification describes: from the first opening brace to the
last closing brace of the whole string, when the former precedes the
latter. -/
def claimSpan (cs : List Char) : Option (List Char) :=
  match firstIdxOf '{' cs, lastIdxOfCh '}' cs with
  | some i, some j => if i < j then some ((cs.drop i).take (j - i + 1)) else none
  | _, _ => none

/-- Shallow embedding of `_try_parse_json` from `ai_client.py`, parameterised
by the behaviour of `json.loads` (`none` = raised). -/
def tryParseJson (loads : String → Option Json) (text : String) : Option Json :=
  match loads text with
  | some v => some v
  | none =>
    match reSearch text.data with
    | some m => loads (String.mk m)
    | none => none

/-- The four keys `recommend_jobs_from_text` requires of a remote reply. -/
def requiredKeys : List String :=
  ["recommended_titles", "confidence_scores", "highlights", "explanation"]

/-- `parsed and isinstance(parsed, dict)` followed by the key-presence loop:
`true` exactly when the parsed value is a non-empty dict containing all four
required keys. -/
def validParsed : Json → Bool
  | .obj kvs => !kvs.isEmpty && requiredKeys.all (fun k => kvs.any (fun kv => kv.1 == k))
  | _ => false

/-- Model of the process environment and of the external effects one call of
`recommend_jobs_from_text` can observe: the `OPENAI_API_KEY` value, the
outcome of `call_openai_chat` (`.error` = any exception, including timeout
and `raise_for_status` on a non-2xx reply), the behaviour of `json.loads`,
and the optional sentence-transformers similarity model (`none` = the import
failed, so `_ST_MODEL is None`). -/
structure Env where
  apiKey : Option String
  callResult : Except Unit Json
  loads : String → Option Json
  sim : Option (String → String → ℚ)

/-- Python truthiness of `OPENAI_API_KEY` (`os.getenv` returns `None` or a
string). -/
def keyTruthy : Option String → Bool
  | some s => s != ""
  | none => false

/-- The optional embedding-based score refinement applied on the keyless
path: cosine similarities are min-max normalised into [0.5, 0.98] and
replace `confidence_scores`; any failure (modelled by `sim = none`) keeps
the heuristic scores. -/
def applySim (sim : Option (String → String → ℚ)) (text : String) (base : RecResult) : RecResult :=
  match sim with
  | none => base
  | some f =>
    let titles := base.recommended_titles
    match titles.map (f text) with
    | [] => base
    | s0 :: srest =>
      let mn := srest.foldl min s0
      let mx := srest.foldl max s0
      let scores := titles.map
        (fun t => (t, round2 (1/2 + (48/100) * ((f text t - mn) / (mx - mn + 1/1000000000)))))
      { base with confidence_scores := scores }

/-- Shallow embedding of `recommend_jobs_from_text` from `ai_client.py`.
The result is `.inl r` when the (possibly refined) heuristic result `r` is
returned, and `.inr p` when a parsed remote reply `p` is passed through
verbatim.  Totality of this function reflects the `try`/`except` that wraps
the whole remote path. -/
def recommend_jobs_from_text (env : Env) (text : String) : RecResult ⊕ Json :=
  if keyTruthy env.apiKey then
    match env.callResult with
    | .error _ => .inl (heuristic_recommend text)
    | .ok resp =>
      match extractMsg resp with
      | none => .inl (heuristic_recommend text)
      | some msg =>
        match tryParseJson env.loads msg with
        | none => .inl (heuristic_recommend text)
        | some p => if validParsed p then .inr p else .inl (heuristic_recommend text)
  else
    .inl (applySim env.sim text (heuristic_recommend text))

/-- Model of Python `str.endswith`. -/
def pyEndsWith (s suffix : String) : Bool :=
  List.isSuffixOf suffix.data s.data

/-- The external PDF/DOCX parsing libraries, abstracted by what the code
observes of them.  `readPdf` models `PdfReader(io.BytesIO(bytes)).pages`
together with the outcome of `page.extract_text()` on each page (`.error` =
that call raised; `some`/`none` = the returned string or `None`);
`readDocx` models `Document(f).paragraphs` with the outcome of `p.text` on
each paragraph.  An outer `.error` models a raised constructor. -/
structure DocLib where
  readPdf : List Nat → Except Unit (List (Except Unit (Option String)))
  readDocx : List Nat → Except Unit (List (Except Unit String))

/-- The `texts` list of `extract_text_from_pdf`: per-page
`texts.append(page.extract_text() or "")`, skipping pages whose extraction
raised (`except Exception: continue`). -/
def collectPages (pages : List (Except Unit (Option String))) : List String :=
  pages.foldr
    (fun p acc =>
      match p with
      | .ok t => t.getD "" :: acc
      | .error _ => acc)
    []

/-- Shallow embedding of `extract_text_from_pdf` from `resume_parser.py`. -/
def extract_text_from_pdf (lib : DocLib) (file_bytes : List Nat) : Except Unit String :=
  match lib.readPdf file_bytes with
  | .error e => .error e
  | .ok pages => .ok (String.intercalate "\n" (collectPages pages))

/-- `"\n".join(p.text for p in doc.paragraphs)`: the paragraph texts in
order, raising the first `p.text` exception (there is no `try` in
`extract_text_from_docx`). -/
def seqParas : List (Except Unit String) → Except Unit (List String)
  | [] => .ok []
  | .error e :: _ => .error e
  | .ok s :: rest => (seqParas rest).map (fun ts => s :: ts)

/-- Shallow embedding of `extract_text_from_docx` from `resume_parser.py`. -/
def extract_text_from_docx (lib : DocLib) (file_bytes : List Nat) : Except Unit String :=
  match lib.readDocx file_bytes with
  | .error e => .error e
  | .ok paras =>
    match seqParas paras with
    | .error e => .error e
    | .ok ts => .ok (String.intercalate "\n" ts)

/-- Is `b` a UTF-8 continuation byte? -/
def isContByte (b : Nat) : Bool := 0x80 ≤ b && b ≤ 0xBF

/-- Valid second byte of a three-byte sequence led by `b1` (excluding
overlong encodings and surrogates, as CPython's UTF-8 decoder does). -/
def e0SecondOk (b1 b2 : Nat) : Bool :=
  if b1 = 0xE0 then 0xA0 ≤ b2 && b2 ≤ 0xBF
  else if b1 = 0xED then 0x80 ≤ b2 && b2 ≤ 0x9F
  else isContByte b2

/-- Valid second byte of a four-byte sequence led by `b1` (excluding
overlong encodings and values above U+10FFFF). -/
def f0SecondOk (b1 b2 : Nat) : Bool :=
  if b1 = 0xF0 then 0x90 ≤ b2 && b2 ≤ 0xBF
  else if b1 = 0xF4 then 0x80 ≤ b2 && b2 ≤ 0x8F
  else isContByte b2

/-- One decoding step of `bytes.decode('utf-8', errors='ignore')`, given the
first byte `b1` and the remaining bytes `t1`.  Result `(c?, k?)`: `c?` is the
decoded character (or `none` for an ill-formed sequence, whose maximal
subpart is dropped, as CPython's `ignore` handler does), and `k?` is how many
bytes of `t1` were consumed, with `none` when the input ends inside a
truncated sequence (decoding halts). -/
def utf8Step (b1 : Nat) (t1 : List Nat) : Option Char × Option Nat :=
  if b1 < 0x80 then (some (Char.ofNat b1), some 0)
  else if 0xC2 ≤ b1 ∧ b1 ≤ 0xDF then
    match t1 with
    | [] => (none, none)
    | b2 :: _ =>
      if isContByte b2 then
        (some (Char.ofNat ((b1 - 0xC0) * 64 + (b2 - 0x80))), some 1)
      else (none, some 0)
  else if 0xE0 ≤ b1 ∧ b1 ≤ 0xEF then
    match t1 with
    | [] => (none, none)
    | b2 :: t2 =>
      if e0SecondOk b1 b2 then
        match t2 with
        | [] => (none, none)
        | b3 :: _ =>
          if isContByte b3 then
            (some (Char.ofNat ((b1 - 0xE0) * 4096 + (b2 - 0x80) * 64 + (b3 - 0x80))), some 2)
          else (none, some 1)
      else (none, some 0)
  else if 0xF0 ≤ b1 ∧ b1 ≤ 0xF4 then
    match t1 with
    | [] => (none, none)
    | b2 :: t2 =>
      if f0SecondOk b1 b2 then
        match t2 with
        | [] => (none, none)
        | b3 :: t3 =>
          if isContByte b3 then
            match t3 with
            | [] => (none, none)
            | b4 :: _ =>
              if isContByte b4 then
                (some (Char.ofNat
                    ((b1 - 0xF0) * 262144 + (b2 - 0x80) * 4096 + (b3 - 0x80) * 64 +
                      (b4 - 0x80))),
                  some 3)
              else (none, some 2)
          else (none, some 1)
      else (none, some 0)
  else (none, some 0)

/-- Model of `bytes.decode('utf-8', errors='ignore')`: decode well-formed
UTF-8 sequences and silently drop the maximal subpart of any ill-formed
sequence.  Bytes are naturals below 256.  The function is total: the
`except` branch of `extract_text` returning `''` is unreachable in Python,
and has no counterpart here. -/
def utf8DecodeIgnore : List Nat → List Char
  | [] => []
  | b1 :: t1 =>
    match utf8Step b1 t1 with
    | (some c, some k) => c :: utf8DecodeIgnore (t1.drop k)
    | (none, some k) => utf8DecodeIgnore (t1.drop k)
    | (_, none) => []
termination_by l => l.length
decreasing_by
  all_goals simp only [List.length_cons, List.length_drop]
  all_goals omega

/-- The UTF-8 encoding of one character, as a byte list. -/
def utf8EncodeChar (c : Char) : List Nat :=
  let v := c.toNat
  if v < 0x80 then [v]
  else if v < 0x800 then [0xC0 + v / 64, 0x80 + v % 64]
  else if v < 0x10000 then [0xE0 + v / 4096, 0x80 + v / 64 % 64, 0x80 + v % 64]
  else [0xF0 + v / 262144, 0x80 + v / 4096 % 64, 0x80 + v / 64 % 64, 0x80 + v % 64]

/-- The UTF-8 encoding of a string, as a byte list. -/
def utf8Encode (s : String) : List Nat :=
  s.data.flatMap utf8EncodeChar

/-- Shallow embedding of `extract_text` from `resume_parser.py`: dispatch on
the lower-cased filename, then PDF, DOCX, or lossy UTF-8 decoding. -/
def extract_text (lib : DocLib) (filename : String) (file_bytes : List Nat) :
    Except Unit String :=
  let lower := pyLower filename
  if pyEndsWith lower ".pdf" then extract_text_from_pdf lib file_bytes
  else if pyEndsWith lower ".docx" || pyEndsWith lower ".doc" then
    extract_text_from_docx lib file_bytes
  else .ok (String.mk (utf8DecodeIgnore file_bytes))

/-- Equality of two string lists as sets. -/
def strSetEq (a b : List String) : Bool :=
  a.all (fun x => decide (x ∈ b)) && b.all (fun x => decide (x ∈ a))

/-- The entries of a JSON array, when they are all strings. -/
def titlesAsStrings (ts : List Json) : Option (List String) :=
  ts.mapM (fun j => match j with | .str s => some s | _ => none)

/-- The invariant of claim C3: the keys of `confidence_scores` are exactly
the set of entries of `recommended_titles`, on either kind of pipeline
result. -/
def scoresMatchTitles : RecResult ⊕ Json → Bool
  | .inl r => strSetEq (r.confidence_scores.map Prod.fst) r.recommended_titles
  | .inr j =>
    match getKey j "recommended_titles", getKey j "confidence_scores" with
    | some (.arr ts), some (.obj sc) =>
      match titlesAsStrings ts with
      | some tss => strSetEq (sc.map Prod.fst) tss
      | none => false
    | _, _ => false

def claim3_cexEnvWitness : Env :=
  { apiKey := none, callResult := .error (), loads := fun _ => none, sim := none }

/-- A remote reply that passes the key-presence check but whose
`confidence_scores` keys do not match its `recommended_titles`. -/
def claim3_badReply : Json :=
  .obj [("recommended_titles", .arr [.str "Backend Engineer"]),
        ("confidence_scores", .obj [("Frontend Engineer", .num (9/10))]),
        ("highlights", .arr []),
        ("explanation", .str "mismatch")]

/-- A `json.loads` behaviour mapping the assistant reply to
`claim3_badReply` (a real JSON parser does exactly this on the
corresponding reply text). -/
def claim3_cexLoads : String → Option Json :=
  fun s => if s = "REPLY" then some claim3_badReply else none

def claim3_cexResp : Json :=
  .obj [("choices", .arr [.obj [("message", .obj [("content", .str "REPLY")])]])]

def claim3_cexEnv : Env :=
  { apiKey := some "sk-test", callResult := .ok claim3_cexResp,
    loads := claim3_cexLoads, sim := none }

def claim4_cexEnv : Env :=
  { apiKey := some "sk-test", callResult := .error (), loads := fun _ => none, sim := none }

def claim8_cexResp : Json :=
  .obj [("choices", .arr [.obj [("message", .obj [("content", .str "no json here")])]])]

def claim8_cexEnv : Env :=
  { apiKey := some "sk-test", callResult := .ok claim8_cexResp,
    loads := fun _ => none, sim := none }

/-- A library behaviour where constructing the reader/document from the
bytes fails — as `PyPDF2.PdfReader` and `docx.Document` do on corrupt
input. -/
def claim5_badLib : DocLib :=
  { readPdf := fun _ => .error (), readDocx := fun _ => .error () }

/-- A library behaviour with three pages: one good, one whose
`extract_text()` raises, one returning `None`. -/
def claim5_libW : DocLib :=
  { readPdf := fun _ => .ok [.ok (some "page one"), .error (), .ok none],
    readDocx := fun _ => .error () }

theorem goBW_startsWith :
    ∀ (l : List Char) (st : Option (List Char)) (s : String),
      s ∈ goBW l st → ∃ ws, s = String.mk ('\\' :: ws) := by
  intro l
  induction l with
  | nil =>
    intro st s hs
    rcases st with _ | ⟨_ | ⟨w, ws⟩⟩ <;> simp [goBW, mkTok] at hs
    exact ⟨_, hs⟩
  | cons c t ih =>
    intro st s hs
    rcases st with _ | ⟨_ | ⟨w, ws⟩⟩
    · simp only [goBW] at hs
      split_ifs at hs <;> exact ih _ s hs
    · simp only [goBW] at hs
      split_ifs at hs <;> exact ih _ s hs
    · simp only [goBW] at hs
      split_ifs at hs <;>
        first
        | exact ih _ s hs
        | (rcases List.mem_cons.mp hs with h | h
           · exact ⟨_, h⟩
           · exact ih _ s h)

theorem mem_pyTokens_head (s : String) (text : String) (h : s ∈ pyTokens text) :
    s.data.head? = some '\\' := by
  obtain ⟨ws, rfl⟩ := goBW_startsWith _ _ _ h
  rfl

theorem bucketHit_pyTokens_false (text : String) (ks : List String)
    (h : ∀ k ∈ ks, k.data.head? ≠ some '\\') :
    bucketHit (pyTokens text) ks = false := by
  unfold bucketHit
  rw [List.any_eq_false]
  intro k hk
  exact fun htrue => h k hk (mem_pyTokens_head k text (of_decide_eq_true htrue))

theorem round2_eval : round2 (7/10 + (2/10) * (((0 : ℕ) : ℚ) / ((max 1 (1 - 1) : ℕ) : ℚ))) = 7/10 := by
  norm_num [round2, roundHalfEven]

theorem heuristic_recommend_const (text : String) :
    (heuristic_recommend text).recommended_titles = ["Software Engineer (General)"] ∧
    (heuristic_recommend text).confidence_scores = [("Software Engineer (General)", 7/10)] := by
  have h1 := bucketHit_pyTokens_false text backendKeys (by decide)
  have h2 := bucketHit_pyTokens_false text frontendKeys (by decide)
  have h3 := bucketHit_pyTokens_false text cloudKeys (by decide)
  have h4 := bucketHit_pyTokens_false text mlKeys (by decide)
  simp only [heuristic_recommend, h1, h2, h3, h4, Bool.false_eq_true, if_false,
    List.append_nil, List.nil_append, List.isEmpty_nil, if_true]
  norm_num [List.enum, round2, roundHalfEven]

/-- C1: the spec says a text containing the word "python" (and no other
bucket's keywords) must yield exactly ["Backend Engineer / Python Developer"]
with score 0.7.  The code disagrees: `re.findall(r"\\w+", ...)` matches a
literal backslash followed by letters `w`, never the word "python", so the
input "python" (and indeed every input) produces the fallback title
"Software Engineer (General)".  This theorem evaluates the code at the
failing input and proves the bucket logic unreachable for every text. -/
theorem claim1_python_bucket_dead_code :
    (heuristic_recommend "python").recommended_titles = ["Software Engineer (General)"] ∧
    (heuristic_recommend "python").confidence_scores = [("Software Engineer (General)", 7/10)] ∧
    (heuristic_recommend "python").recommended_titles ≠ ["Backend Engineer / Python Developer"] ∧
    ∀ text : String,
      (heuristic_recommend text).recommended_titles = ["Software Engineer (General)"] := by
  refine ⟨(heuristic_recommend_const "python").1, (heuristic_recommend_const "python").2, ?_,
    fun text => (heuristic_recommend_const text).1⟩
  rw [(heuristic_recommend_const "python").1]
  decide

/-- C2: the spec says a text triggering the backend, frontend and cloud
buckets yields three titles with scores 0.70, 0.80, 0.90.  Because of the
same `r"\\w+"` tokenizer bug, the input "python javascript aws" triggers no
bucket at all: the code returns the single fallback title with score 0.7,
and no input can ever produce more than one title. -/
theorem claim2_multi_bucket_dead_code :
    (heuristic_recommend "python javascript aws").recommended_titles =
      ["Software Engineer (General)"] ∧
    (heuristic_recommend "python javascript aws").confidence_scores =
      [("Software Engineer (General)", 7/10)] ∧
    (heuristic_recommend "python javascript aws").recommended_titles ≠
      ["Backend Engineer / Python Developer", "Frontend Engineer / React Developer",
        "Cloud Engineer / DevOps Engineer"] := by
  refine ⟨(heuristic_recommend_const _).1, (heuristic_recommend_const _).2, ?_⟩
  rw [(heuristic_recommend_const _).1]
  decide

/-- C6: for every input text whose token set triggers no keyword bucket
(including the empty text), `heuristic_recommend` returns exactly
["Software Engineer (General)"] with confidence score 0.7. -/
theorem claim6_no_bucket_general (text : String)
    (h1 : bucketHit (pyTokens text) backendKeys = false)
    (h2 : bucketHit (pyTokens text) frontendKeys = false)
    (h3 : bucketHit (pyTokens text) cloudKeys = false)
    (h4 : bucketHit (pyTokens text) mlKeys = false) :
    (heuristic_recommend text).recommended_titles = ["Software Engineer (General)"] ∧
    (heuristic_recommend text).confidence_scores = [("Software Engineer (General)", 7/10)] :=
  heuristic_recommend_const text

/-- Witness for C6, at the empty text. -/
theorem claim6_no_bucket_general_witness :
    (heuristic_recommend "").recommended_titles = ["Software Engineer (General)"] ∧
    (heuristic_recommend "").confidence_scores = [("Software Engineer (General)", 7/10)] :=
  claim6_no_bucket_general "" (by decide) (by decide) (by decide) (by decide)

/-- C7: the spec says the highlight string lists up to 20 sorted distinct
word tokens of the text longer than 3 characters.  With the `r"\\w+"`
tokenizer bug the token list of "python developer" is empty, so the
highlight is the bare prefix with no tokens, not
"Detected skills sample: developer, python". -/
theorem claim7_highlights_empty :
    (heuristic_recommend "python developer").highlights = ["Detected skills sample: "] ∧
    (heuristic_recommend "python developer").highlights ≠
      ["Detected skills sample: developer, python"] := by
  constructor
  · decide
  · decide

theorem strSetEq_self (a : List String) : strSetEq a a = true := by
  simp [strSetEq, List.all_eq_true]

theorem heuristic_scores_keys (text : String) :
    (heuristic_recommend text).confidence_scores.map Prod.fst =
      (heuristic_recommend text).recommended_titles := by
  simp only [heuristic_recommend, List.map_map]
  exact List.enum_map_snd _

theorem applySim_keys (sim : Option (String → String → ℚ)) (text : String) (base : RecResult)
    (h : base.confidence_scores.map Prod.fst = base.recommended_titles) :
    (applySim sim text base).confidence_scores.map Prod.fst =
      (applySim sim text base).recommended_titles := by
  match sim with
  | none => exact h
  | some f =>
    simp only [applySim]
    match hm : base.recommended_titles.map (f text) with
    | [] => exact h
    | s0 :: rest =>
      rw [List.map_map]
      exact List.map_id base.recommended_titles

/-- C3 (amended): every `RecResult` the pipeline returns through the
heuristic path — the keyless path with or without embedding refinement, and
every remote-failure fallback — satisfies the invariant that the keys of
`confidence_scores` are exactly the entries of `recommended_titles`.  (The
raw remote pass-through is exempt: see the counterexample.) -/
theorem claim3_heuristic_path_invariant (env : Env) (text : String) (r : RecResult)
    (h : recommend_jobs_from_text env text = Sum.inl r) :
    scoresMatchTitles (Sum.inl r) = true := by
  obtain ⟨key, callR, loads, sim⟩ := env
  have hkeys : r.confidence_scores.map Prod.fst = r.recommended_titles := by
    unfold recommend_jobs_from_text at h
    iterate 5 (all_goals try split at h)
    all_goals
      first
      | (injection h with h
         subst h
         first
         | exact heuristic_scores_keys text
         | exact applySim_keys sim text (heuristic_recommend text) (heuristic_scores_keys text))
      | simp at h
  simp only [scoresMatchTitles, hkeys]
  exact strSetEq_self _

/-- Witness for C3: a concrete keyless run whose heuristic result satisfies
the invariant. -/
theorem claim3_heuristic_path_invariant_witness :
    scoresMatchTitles (Sum.inl (heuristic_recommend "resume")) = true :=
  claim3_heuristic_path_invariant claim3_cexEnvWitness "resume" (heuristic_recommend "resume") rfl

/-- C3 counterexample: the remote path checks only the presence of the four
top-level keys, so a successfully parsed reply whose `confidence_scores`
keys differ from its `recommended_titles` is returned verbatim, violating
the claimed invariant. -/
theorem claim3_remote_invariant_counterexample :
    scoresMatchTitles (recommend_jobs_from_text claim3_cexEnv "resume text") = false := by
  decide

/-- C4: whenever the remote path is taken (a truthy `OPENAI_API_KEY`) and
any failure occurs — an exception during the HTTP call (which covers
timeouts and non-2xx statuses via `raise_for_status`), a reply from which no
assistant message string can be extracted, a reply that cannot be parsed to
a JSON value, or a parsed value that is not a non-empty dict with all four
required keys — `recommend_jobs_from_text` returns exactly
`heuristic_recommend` of the same text.  Totality of the embedding reflects
that no exception propagates to the caller. -/
theorem claim4_remote_failure_fallback (env : Env) (text : String)
    (hk : keyTruthy env.apiKey = true)
    (hfail :
      env.callResult = .error () ∨
      (∃ resp, env.callResult = .ok resp ∧ extractMsg resp = none) ∨
      (∃ resp msg, env.callResult = .ok resp ∧ extractMsg resp = some msg ∧
        tryParseJson env.loads msg = none) ∨
      (∃ resp msg p, env.callResult = .ok resp ∧ extractMsg resp = some msg ∧
        tryParseJson env.loads msg = some p ∧ validParsed p = false)) :
    recommend_jobs_from_text env text = Sum.inl (heuristic_recommend text) := by
  unfold recommend_jobs_from_text
  rw [hk]
  simp only [if_true]
  rcases hfail with hc | ⟨resp, hc, hm⟩ | ⟨resp, msg, hc, hm, hp⟩ | ⟨resp, msg, p, hc, hm, hp, hv⟩
  · simp only [hc]
  · simp only [hc, hm]
  · simp only [hc, hm, hp]
  · simp only [hc, hm, hp, hv, Bool.false_eq_true, if_false]

/-- Witness for C4: a concrete environment whose HTTP call raises. -/
theorem claim4_remote_failure_fallback_witness :
    recommend_jobs_from_text claim4_cexEnv "resume" = Sum.inl (heuristic_recommend "resume") :=
  claim4_remote_failure_fallback claim4_cexEnv "resume" rfl (Or.inl rfl)

theorem reSearch_eq_claimSpan : ∀ cs : List Char, reSearch cs = claimSpan cs := by
  intro cs
  induction cs with
  | nil => rfl
  | cons c rest ih =>
    by_cases hc : c = '{'
    · subst hc
      rcases hl : lastIdxOfCh '}' rest with _ | j
      · simp only [reSearch, matchAt, if_pos rfl, hl, Option.map_none']
        rw [ih]
        unfold claimSpan
        simp [lastIdxOfCh, hl]
      · simp only [reSearch, matchAt, if_pos rfl, hl, Option.map_some']
        unfold claimSpan
        simp [firstIdxOf, lastIdxOfCh, hl]
    · have hmatch : matchAt (c :: rest) = none := by simp [matchAt, hc]
      simp only [reSearch, hmatch]
      rw [ih]
      unfold claimSpan
      rcases hf : firstIdxOf '{' rest with _ | i
      · simp [firstIdxOf, hc, hf]
      · rcases hl : lastIdxOfCh '}' rest with _ | j
        · by_cases hcb : c = '}'
          · simp [firstIdxOf, lastIdxOfCh, hc, hf, hl, hcb]
          · simp [firstIdxOf, lastIdxOfCh, hc, hf, hl, hcb]
        · simp only [firstIdxOf, lastIdxOfCh, hc, hf, hl, if_neg hc, Option.map_some',
            if_false, decide_False, Bool.false_eq_true]
          by_cases hij : i < j
          · rw [if_pos hij, if_pos (Nat.add_lt_add_right hij 1)]
            rw [List.drop_succ_cons, Nat.succ_sub_succ]
          · rw [if_neg hij, if_neg (fun hlt => hij (Nat.lt_of_add_lt_add_right hlt))]

/-- C8: `_try_parse_json` first parses the whole reply; exactly when that
fails it parses the span from the first opening brace to the last closing
brace of the reply (the greedy `re.S` match), and when both attempts fail it
yields no object and the caller falls back to the heuristic result. -/
theorem claim8_json_recovery (loads : String → Option Json) (text : String) :
    (tryParseJson loads text =
      match loads text with
      | some v => some v
      | none =>
        match claimSpan text.data with
        | some m => loads (String.mk m)
        | none => none) ∧
    (∀ env : Env, keyTruthy env.apiKey = true →
      ∀ resp msg, env.callResult = .ok resp → extractMsg resp = some msg →
        tryParseJson env.loads msg = none →
        recommend_jobs_from_text env text = Sum.inl (heuristic_recommend text)) := by
  constructor
  · unfold tryParseJson
    rw [reSearch_eq_claimSpan]
  · intro env hk resp msg hc hm hp
    unfold recommend_jobs_from_text
    rw [hk]
    simp only [if_true, hc, hm, hp]

/-- Witness for C8, on a reply with no braces and a failing parse. -/
theorem claim8_json_recovery_witness :
    recommend_jobs_from_text claim8_cexEnv "resume" = Sum.inl (heuristic_recommend "resume") :=
  (claim8_json_recovery claim8_cexEnv.loads "resume").2 claim8_cexEnv rfl
    claim8_cexResp "no json here" rfl rfl rfl

/-- C5 counterexample: for a `.pdf` filename with bytes the PDF library
cannot open, the `PdfReader(...)` constructor call sits outside the
`try`/`except`, so the exception propagates out of `extract_text` — the
claim that no exception is raised for arbitrary content is false. -/
theorem claim5_extract_raises_counterexample :
    pyEndsWith (pyLower "resume.pdf") ".pdf" = true ∧
    extract_text claim5_badLib "resume.pdf" [] = .error () := by
  exact ⟨rfl, rfl⟩

/-- C5 (amended): per-page extraction failures are indeed skipped silently —
whenever the PDF reader itself is constructed successfully, `extract_text`
on a `.pdf` filename returns, without raising, the newline-join of the texts
of exactly the pages whose extraction succeeded (a page returning `None`
contributing ""). -/
theorem claim5_pdf_page_failures_skipped (lib : DocLib) (fn : String) (bytes : List Nat)
    (pages : List (Except Unit (Option String)))
    (hpdf : pyEndsWith (pyLower fn) ".pdf" = true)
    (hread : lib.readPdf bytes = .ok pages) :
    extract_text lib fn bytes = .ok (String.intercalate "\n" (collectPages pages)) := by
  simp only [extract_text, hpdf, if_true]
  unfold extract_text_from_pdf
  rw [hread]

/-- Witness for C5 (amended): the raising page is skipped, the `None` page
contributes the empty string. -/
theorem claim5_pdf_page_failures_skipped_witness :
    extract_text claim5_libW "r.pdf" [] = .ok "page one\n" := by
  have h := claim5_pdf_page_failures_skipped claim5_libW "r.pdf" []
    [.ok (some "page one"), .error (), .ok none] rfl rfl
  exact h

theorem utf8DecodeIgnore_cons (b1 : Nat) (t1 : List Nat) :
    utf8DecodeIgnore (b1 :: t1) =
      match utf8Step b1 t1 with
      | (some c, some k) => c :: utf8DecodeIgnore (t1.drop k)
      | (none, some k) => utf8DecodeIgnore (t1.drop k)
      | (_, none) => [] := by
  rw [utf8DecodeIgnore]

theorem decode_encodeChar (c : Char) (l : List Nat) :
    utf8DecodeIgnore (utf8EncodeChar c ++ l) = c :: utf8DecodeIgnore l := by
  have hv : c.toNat < 0xd800 ∨ (0xdfff < c.toNat ∧ c.toNat < 0x110000) := c.valid
  have e1 := Nat.div_add_mod c.toNat 64
  have e2 := Nat.div_add_mod (c.toNat / 64) 64
  have e3 : c.toNat / 64 / 64 = c.toNat / 4096 := by
    rw [Nat.div_div_eq_div_mul]
  have e4 : c.toNat / 4096 / 64 = c.toNat / 262144 := by
    rw [Nat.div_div_eq_div_mul]
  have e5 := Nat.div_add_mod (c.toNat / 4096) 64
  have m1 : c.toNat % 64 < 64 := Nat.mod_lt _ (by omega)
  have m2 : c.toNat / 64 % 64 < 64 := Nat.mod_lt _ (by omega)
  have m3 : c.toNat / 4096 % 64 < 64 := Nat.mod_lt _ (by omega)
  rw [e3] at e2
  rw [e4] at e5
  by_cases h1 : c.toNat < 0x80
  · have henc : utf8EncodeChar c = [c.toNat] := by
      simp [utf8EncodeChar, h1]
    rw [henc, List.cons_append, List.nil_append, utf8DecodeIgnore_cons]
    have hstep : utf8Step c.toNat l = (some (Char.ofNat c.toNat), some 0) := by
      simp [utf8Step, h1]
    rw [hstep]
    simp [Char.ofNat_toNat]
  · by_cases h2 : c.toNat < 0x800
    · have henc : utf8EncodeChar c = [0xC0 + c.toNat / 64, 0x80 + c.toNat % 64] := by
        simp [utf8EncodeChar, h1, h2]
      have hd : c.toNat / 64 < 32 := by omega
      have hd2 : 2 ≤ c.toNat / 64 := by omega
      rw [henc, List.cons_append, List.cons_append, List.nil_append, utf8DecodeIgnore_cons]
      have hstep : utf8Step (0xC0 + c.toNat / 64) ((0x80 + c.toNat % 64) :: l) =
          (some (Char.ofNat c.toNat), some 1) := by
        have hb2 : isContByte (0x80 + c.toNat % 64) = true := by
          simp [isContByte]; omega
        simp only [utf8Step, hb2]
        rw [if_neg (by omega), if_pos (by constructor <;> omega)]
        have : 0xC0 + c.toNat / 64 - 0xC0 = c.toNat / 64 := by omega
        rw [this]
        have : 0x80 + c.toNat % 64 - 0x80 = c.toNat % 64 := by omega
        rw [this]
        have : c.toNat / 64 * 64 + c.toNat % 64 = c.toNat := by omega
        rw [this]
        simp
      rw [hstep]
      simp [Char.ofNat_toNat]
    · by_cases h3 : c.toNat < 0x10000
      · have henc : utf8EncodeChar c =
            [0xE0 + c.toNat / 4096, 0x80 + c.toNat / 64 % 64, 0x80 + c.toNat % 64] := by
          simp [utf8EncodeChar, h1, h2, h3]
        have hd : c.toNat / 4096 < 16 := by omega
        rw [henc, List.cons_append, List.cons_append, List.cons_append, List.nil_append,
          utf8DecodeIgnore_cons]
        have hok : e0SecondOk (0xE0 + c.toNat / 4096) (0x80 + c.toNat / 64 % 64) = true := by
          simp only [e0SecondOk, isContByte]
          split_ifs with hA hB
          · simp only [decide_eq_true_eq, Bool.and_eq_true]
            constructor <;> [skip; omega]
            · have hz : c.toNat / 4096 = 0 := by omega
              have : c.toNat / 64 < 64 := by omega
              omega
          · simp only [decide_eq_true_eq, Bool.and_eq_true]
            have hz : c.toNat / 4096 = 13 := by omega
            have hlow : c.toNat < 0xd800 := by
              rcases hv with h | ⟨ha, hb⟩
              · exact h
              · omega
            constructor <;> omega
          · simp only [decide_eq_true_eq, Bool.and_eq_true]
            constructor <;> omega
        have hstep : utf8Step (0xE0 + c.toNat / 4096)
            ((0x80 + c.toNat / 64 % 64) :: (0x80 + c.toNat % 64) :: l) =
            (some (Char.ofNat c.toNat), some 2) := by
          have hb3 : isContByte (0x80 + c.toNat % 64) = true := by
            simp [isContByte]; omega
          simp only [utf8Step, hok, hb3]
          rw [if_neg (by omega), if_neg (by omega), if_pos (by constructor <;> omega)]
          simp only [if_true]
          have r1 : 0xE0 + c.toNat / 4096 - 0xE0 = c.toNat / 4096 := by omega
          have r2 : 0x80 + c.toNat / 64 % 64 - 0x80 = c.toNat / 64 % 64 := by omega
          have r3 : 0x80 + c.toNat % 64 - 0x80 = c.toNat % 64 := by omega
          rw [r1, r2, r3]
          have : c.toNat / 4096 * 4096 + c.toNat / 64 % 64 * 64 + c.toNat % 64 = c.toNat := by
            omega
          rw [this]
        rw [hstep]
        simp [Char.ofNat_toNat]
      · have hhi : c.toNat < 0x110000 := by
          rcases hv with h | ⟨ha, hb⟩
          · omega
          · exact hb
        have henc : utf8EncodeChar c =
            [0xF0 + c.toNat / 262144, 0x80 + c.toNat / 4096 % 64, 0x80 + c.toNat / 64 % 64,
              0x80 + c.toNat % 64] := by
          simp [utf8EncodeChar, h1, h2, h3]
        have hd : c.toNat / 262144 ≤ 4 := by omega
        rw [henc, List.cons_append, List.cons_append, List.cons_append, List.cons_append,
          List.nil_append, utf8DecodeIgnore_cons]
        have hok : f0SecondOk (0xF0 + c.toNat / 262144) (0x80 + c.toNat / 4096 % 64) = true := by
          simp only [f0SecondOk, isContByte]
          split_ifs with hA hB
          · simp only [decide_eq_true_eq, Bool.and_eq_true]
            have hz : c.toNat / 262144 = 0 := by omega
            have h16 : 16 ≤ c.toNat / 4096 := by omega
            have h64 : c.toNat / 4096 < 64 := by omega
            constructor <;> omega
          · simp only [decide_eq_true_eq, Bool.and_eq_true]
            have hz : c.toNat / 262144 = 4 := by omega
            constructor <;> omega
          · simp only [decide_eq_true_eq, Bool.and_eq_true]
            constructor <;> omega
        have hstep : utf8Step (0xF0 + c.toNat / 262144)
            ((0x80 + c.toNat / 4096 % 64) :: (0x80 + c.toNat / 64 % 64) ::
              (0x80 + c.toNat % 64) :: l) =
            (some (Char.ofNat c.toNat), some 3) := by
          have hb3 : isContByte (0x80 + c.toNat / 64 % 64) = true := by
            simp [isContByte]; omega
          have hb4 : isContByte (0x80 + c.toNat % 64) = true := by
            simp [isContByte]; omega
          simp only [utf8Step, hok, hb3, hb4]
          rw [if_neg (by omega), if_neg (by omega), if_neg (by omega),
            if_pos (by constructor <;> omega)]
          simp only [if_true]
          have r1 : 0xF0 + c.toNat / 262144 - 0xF0 = c.toNat / 262144 := by omega
          have r2 : 0x80 + c.toNat / 4096 % 64 - 0x80 = c.toNat / 4096 % 64 := by omega
          have r3 : 0x80 + c.toNat / 64 % 64 - 0x80 = c.toNat / 64 % 64 := by omega
          have r4 : 0x80 + c.toNat % 64 - 0x80 = c.toNat % 64 := by omega
          rw [r1, r2, r3, r4]
          have : c.toNat / 262144 * 262144 + c.toNat / 4096 % 64 * 4096 +
              c.toNat / 64 % 64 * 64 + c.toNat % 64 = c.toNat := by omega
          rw [this]
        rw [hstep]
        simp [Char.ofNat_toNat]

theorem utf8DecodeIgnore_nil : utf8DecodeIgnore [] = [] := by
  rw [utf8DecodeIgnore]

theorem utf8_decode_flatMap :
    ∀ l : List Char, utf8DecodeIgnore (l.flatMap utf8EncodeChar) = l := by
  intro l
  induction l with
  | nil => simpa using utf8DecodeIgnore_nil
  | cons c t ih =>
    rw [List.flatMap_cons, decode_encodeChar, ih]

theorem utf8_roundtrip (s : String) : utf8DecodeIgnore (utf8Encode s) = s.data :=
  utf8_decode_flatMap s.data

theorem toNat_ofNat_valid (n : Nat) (h : n < 55296) : (Char.ofNat n).toNat = n := by
  unfold Char.ofNat
  rw [dif_pos (Or.inl h)]
  rfl

theorem pyLowerChar_idem (c : Char) : pyLowerChar (pyLowerChar c) = pyLowerChar c := by
  by_cases h : 65 ≤ c.toNat ∧ c.toNat ≤ 90
  · have hin : pyLowerChar c = Char.ofNat (c.toNat + 32) := by simp [pyLowerChar, h]
    rw [hin]
    unfold pyLowerChar
    rw [if_neg (by rw [toNat_ofNat_valid _ (by omega)]; omega)]
  · have hin : pyLowerChar c = c := by simp [pyLowerChar, h]
    rw [hin, hin]

theorem map_pyLowerChar_idem (l : List Char) :
    (l.map pyLowerChar).map pyLowerChar = l.map pyLowerChar := by
  induction l with
  | nil => rfl
  | cons a t ih => simp [pyLowerChar_idem, ih]

theorem pyLower_idem (s : String) : pyLower (pyLower s) = pyLower s := by
  unfold pyLower
  exact congrArg String.mk (map_pyLowerChar_idem s.data)

/-- C10: on filenames whose lower-cased form has no recognised extension,
the lossy UTF-8 decode is total — modelled by `utf8DecodeIgnore` being a
function — so `extract_text` always returns (never raises) exactly the lossy
decode of the bytes, and the `except` branch returning `''` is unreachable;
moreover extension dispatch is applied to the lower-cased filename. -/
theorem claim10_plain_decode_total (lib : DocLib) (fn : String) (bytes : List Nat)
    (h1 : pyEndsWith (pyLower fn) ".pdf" = false)
    (h2 : pyEndsWith (pyLower fn) ".docx" = false)
    (h3 : pyEndsWith (pyLower fn) ".doc" = false) :
    extract_text lib fn bytes = .ok (String.mk (utf8DecodeIgnore bytes)) ∧
    (∀ (lib2 : DocLib) (g : String) (bs : List Nat),
      extract_text lib2 g bs = extract_text lib2 (pyLower g) bs) := by
  constructor
  · simp only [extract_text, h1, h2, h3, Bool.or_self, Bool.false_eq_true, if_false]
  · intro lib2 g bs
    simp only [extract_text, pyLower_idem]

/-- Witness for C10, on one undecodable byte. -/
theorem claim10_plain_decode_total_witness :
    extract_text claim5_badLib "notes.md" [255] =
      .ok (String.mk (utf8DecodeIgnore [255])) :=
  (claim10_plain_decode_total claim5_badLib "notes.md" [255] rfl rfl rfl).1

/-- C9 counterexample: the claim quantifies over filenames not ending in
`.pdf`/`.docx`/`.doc`, but dispatch happens on the lower-cased name, so the
filename "A.PDF" — which ends in none of the three — is routed to the PDF
parser and (with bytes that are no PDF) does not return the decoded
content. -/
theorem claim9_uppercase_ext_counterexample :
    pyEndsWith "A.PDF" ".pdf" = false ∧
    pyEndsWith "A.PDF" ".docx" = false ∧
    pyEndsWith "A.PDF" ".doc" = false ∧
    extract_text claim5_badLib "A.PDF" (utf8Encode "hello") = .error () := by
  exact ⟨rfl, rfl, rfl, rfl⟩

/-- C9 (amended): for every filename whose lower-cased form does not end in
`.pdf`, `.docx` or `.doc`, extracting from the UTF-8 encoding of any string
returns exactly that string: encoding then extraction is the identity. -/
theorem claim9_txt_roundtrip (lib : DocLib) (fn : String) (s : String)
    (h1 : pyEndsWith (pyLower fn) ".pdf" = false)
    (h2 : pyEndsWith (pyLower fn) ".docx" = false)
    (h3 : pyEndsWith (pyLower fn) ".doc" = false) :
    extract_text lib fn (utf8Encode s) = .ok s := by
  simp only [extract_text, h1, h2, h3, Bool.or_self, Bool.false_eq_true, if_false]
  rw [utf8_roundtrip]

/-- Witness for C9 on a `.txt` filename and ASCII content. -/
theorem claim9_txt_roundtrip_witness :
    extract_text claim5_badLib "resume.txt" (utf8Encode "hello") = .ok "hello" :=
  claim9_txt_roundtrip claim5_badLib "resume.txt" "hello" rfl rfl rfl
